import Mathlib

/-!
Verification of the checkpoint save/load logic of the notebook
"Part 6 - Saving and Loading Models" and of the mini-batch training loops of
the training notebook.  The notebooks are glue over an external deep-learning
framework; the parts of the framework whose behaviour the notebooks rely on
(`fc_model.Network` construction, `state_dict`, strict `load_state_dict`) are
modelled from the specification and from the architecture the notebook prints,
since `fc_model.py` itself is not part of the sources.
-/

/-- A parameter tensor: a shape together with an opaque payload of entries.
The notebook code never interprets the numeric content, so it is carried
around as plain data. -/
structure Tensor where
  shape : List Nat
  data : List Int
deriving DecidableEq

/-- Names of the entries of a parameter mapping (a `state_dict`): the external
framework names them `hidden_layers.<i>.weight`, `hidden_layers.<i>.bias`,
`output.weight` and `output.bias`.  These parameter names are disjoint from
the four configuration keys of a checkpoint record, which is why they are a
separate type from the `String` keys of a checkpoint dictionary. -/
inductive PKey where
  | hiddenW (i : Nat)
  | hiddenB (i : Nat)
  | outW
  | outB
deriving DecidableEq

/-- A parameter-tensor mapping (the framework's `state_dict`), an ordered
association list from parameter names to tensors. -/
abbrev StateDict := List (PKey × Tensor)

/-- A fully-connected layer: its two dimensions and its two parameter
tensors. -/
structure Linear where
  in_features : Nat
  out_features : Nat
  weight : Tensor
  bias : Tensor
deriving DecidableEq

/-- Modelled from the spec: a freshly constructed `nn.Linear(inF, outF)` has a
weight of shape `[outF, inF]` and a bias of shape `[outF]`.  Its initial
numeric values are produced by the external framework's random initialisation
and are modelled by an empty payload. -/
def Linear.fresh (inF outF : Nat) : Linear :=
  ⟨inF, outF, ⟨[outF, inF], []⟩, ⟨[outF], []⟩⟩

/-- Modelled from the spec: the `fc_model.Network` module (its source file is
not among the repository sources; the spec describes it as "construct an
object from three configuration values", and the notebook prints its
architecture: a `ModuleList` of hidden `Linear` layers followed by an output
`Linear` layer). -/
structure Network where
  hidden_layers : List Linear
  output : Linear
deriving DecidableEq

/-- Modelled from the spec: the chain of hidden layers of a `Network` built
from an input size and the ordered list of hidden-layer widths; each hidden
layer's `in_features` is the previous width. -/
def mkHiddenLayers : Nat → List Nat → List Linear
  | _, [] => []
  | inp, h :: t => Linear.fresh inp h :: mkHiddenLayers h t

/-- Modelled from the spec: `fc_model.Network(input_size, output_size,
hidden_layers)` builds the chained hidden layers and an output layer from the
last hidden width to the output size. -/
def Network.build (input_size output_size : Nat) (hidden : List Nat) : Network :=
  ⟨mkHiddenLayers input_size hidden,
   Linear.fresh (hidden.getLastD input_size) output_size⟩

/-- Modelled from the spec: the `state_dict` entries contributed by the hidden
layers, enumerated from a starting index (`hidden_layers.<i>.weight`,
`hidden_layers.<i>.bias`, in layer order). -/
def hiddenSD : Nat → List Linear → StateDict
  | _, [] => []
  | i, l :: t => (PKey.hiddenW i, l.weight) :: (PKey.hiddenB i, l.bias) :: hiddenSD (i + 1) t

/-- Modelled from the spec: the framework's `model.state_dict()`, the ordered
mapping of all parameter tensors of the model (hidden layers in order, then
the output layer), exactly as the notebook prints its keys. -/
def Network.state_dict (net : Network) : StateDict :=
  hiddenSD 0 net.hidden_layers ++
    [(PKey.outW, net.output.weight), (PKey.outB, net.output.bias)]

/-- Lookup of a parameter name in a `state_dict`. -/
def sdFind : StateDict → PKey → Option Tensor
  | [], _ => none
  | p :: t, k => if p.1 = k then some p.2 else sdFind t k

/-- The shape signature of a `state_dict`: its parameter names together with
their tensor shapes, in order. -/
def sdSig (sd : StateDict) : List (PKey × List Nat) :=
  sd.map (fun p => (p.1, p.2.shape))

/-- Replace the parameters of the hidden layers (enumerated from a starting
index) by the tensors found under their names in a `state_dict`. -/
def restoreHidden : Nat → List Linear → StateDict → List Linear
  | _, [], _ => []
  | i, l :: t, sd =>
      { l with weight := (sdFind sd (PKey.hiddenW i)).getD l.weight,
               bias := (sdFind sd (PKey.hiddenB i)).getD l.bias } ::
        restoreHidden (i + 1) t sd

/-- Replace every parameter of the model by the tensor stored under its name
in the given `state_dict` (the copying step of a successful restore). -/
def Network.withParams (net : Network) (sd : StateDict) : Network :=
  ⟨restoreHidden 0 net.hidden_layers sd,
   { net.output with weight := (sdFind sd PKey.outW).getD net.output.weight,
                     bias := (sdFind sd PKey.outB).getD net.output.bias }⟩

/-- The failure modes observable in the notebook: a missing dictionary key, a
value of an unexpected kind, and the framework's shape-mismatch error. -/
inductive LoadErr where
  | keyError (k : String)
  | typeErr
  | sizeMismatch
deriving DecidableEq

/-- Modelled from the spec: the external framework's strict
`model.load_state_dict(sd)`.  It relies on exact structural equality between
the saved and the constructed parameter shapes: it succeeds exactly when the
shape signatures agree, copying every saved tensor into the model, and
otherwise raises the shape-mismatch error shown in the notebook. -/
def Network.load_state_dict (net : Network) (sd : StateDict) : Except LoadErr Network :=
  if sdSig net.state_dict = sdSig sd then Except.ok (net.withParams sd)
  else Except.error LoadErr.sizeMismatch

/-- The hidden layers form a chain starting at the given input size: each
layer's `in_features` is the preceding layer's `out_features`. -/
def chainIn : Nat → List Linear → Prop
  | _, [] => True
  | inp, l :: t => l.in_features = inp ∧ chainIn l.out_features t

instance instDecChainIn (inp : Nat) (ls : List Linear) : Decidable (chainIn inp ls) := by
  induction ls generalizing inp with
  | nil => exact isTrue trivial
  | cons l t ih => exact @instDecidableAnd _ _ inferInstance (ih l.out_features)

/-- The layer's tensors have the shapes the framework gives a `Linear` of its
dimensions. -/
def Linear.shapely (l : Linear) : Prop :=
  l.weight.shape = [l.out_features, l.in_features] ∧ l.bias.shape = [l.out_features]

instance (l : Linear) : Decidable l.shapely := by
  unfold Linear.shapely; infer_instance

/-- `net` is a well-formed model of input size `inp` and output size `outp`:
any value actually produced by `fc_model.Network` construction (and preserved
by training and by parameter restoration) satisfies this. -/
def Network.wfWith (net : Network) (inp outp : Nat) : Prop :=
  chainIn inp net.hidden_layers ∧
  net.output.in_features = (net.hidden_layers.map Linear.out_features).getLastD inp ∧
  net.output.out_features = outp ∧
  (∀ l ∈ net.hidden_layers, l.shapely) ∧
  net.output.shapely

instance (net : Network) (i o : Nat) : Decidable (net.wfWith i o) := by
  unfold Network.wfWith; infer_instance

/-- A serialised Python value as the notebook passes it to `torch.save` /
receives it from `torch.load`: a number, a list of numbers, a tensor, a bare
`state_dict`, or a dictionary with string keys. -/
inductive PyVal where
  | num (n : Nat)
  | nlist (l : List Nat)
  | tens (t : Tensor)
  | sdict (sd : StateDict)
  | record (entries : List (String × PyVal))

/-- First-match lookup in a dictionary's entry list. -/
def recFind : List (String × PyVal) → String → Option PyVal
  | [], _ => none
  | p :: t, k => if p.1 = k then some p.2 else recFind t k

/-- Python subscription `v[k]`: a hit in a dictionary returns the stored
value; a miss raises `KeyError`.  Subscripting a bare `state_dict` with one of
the configuration keys also raises `KeyError`, because parameter names are
disjoint from the configuration keys; subscripting a non-dictionary raises a
type error. -/
def pyLookup (v : PyVal) (k : String) : Except LoadErr PyVal :=
  match v with
  | PyVal.record es =>
      match recFind es k with
      | some w => Except.ok w
      | none => Except.error (LoadErr.keyError k)
  | PyVal.sdict _ => Except.error (LoadErr.keyError k)
  | _ => Except.error LoadErr.typeErr

/-- Use of a value as a number (e.g. as a size argument of `Network`). -/
def asNum : PyVal → Except LoadErr Nat
  | PyVal.num n => Except.ok n
  | _ => Except.error LoadErr.typeErr

/-- Use of a value as a list of widths. -/
def asNList : PyVal → Except LoadErr (List Nat)
  | PyVal.nlist l => Except.ok l
  | _ => Except.error LoadErr.typeErr

/-- Use of a value as a `state_dict`. -/
def asSdict : PyVal → Except LoadErr StateDict
  | PyVal.sdict sd => Except.ok sd
  | _ => Except.error LoadErr.typeErr

/-- The checkpoint dictionary built by the saving cell of the notebook:
`{'input_size': 784, 'output_size': 10, 'hidden_layers': [each.out_features
for each in model.hidden_layers], 'state_dict': model.state_dict()}`. -/
def checkpointRecord (model : Network) : PyVal :=
  PyVal.record
    [("input_size", PyVal.num 784),
     ("output_size", PyVal.num 10),
     ("hidden_layers", PyVal.nlist (model.hidden_layers.map Linear.out_features)),
     ("state_dict", PyVal.sdict model.state_dict)]

/-- The notebook's `load_checkpoint(filepath)`: read the three configuration
values from the loaded record, construct a `Network` from them, then restore
the record's `state_dict` into the freshly constructed model and return it.
The argument is the value `torch.load` returns for the file. -/
def load_checkpoint (file : PyVal) : Except LoadErr Network := do
  let iv ← pyLookup file "input_size"
  let ov ← pyLookup file "output_size"
  let hv ← pyLookup file "hidden_layers"
  let i ← asNum iv
  let o ← asNum ov
  let hs ← asNList hv
  let model := Network.build i o hs
  let sv ← pyLookup file "state_dict"
  let sd ← asSdict sv
  model.load_state_dict sd

/-- The keys of a dictionary value, in insertion order. -/
def recordKeys : PyVal → List String
  | PyVal.record es => es.map Prod.fst
  | _ => []

/-- A checkpoint-like dictionary holding whichever of the four fields are
present, in canonical order (used to quantify over records lacking keys). -/
def optEntries (i o : Option Nat) (hs : Option (List Nat)) (sd : Option StateDict) :
    List (String × PyVal) :=
  (i.map fun n => ("input_size", PyVal.num n)).toList ++
  (o.map fun n => ("output_size", PyVal.num n)).toList ++
  (hs.map fun l => ("hidden_layers", PyVal.nlist l)).toList ++
  (sd.map fun s => ("state_dict", PyVal.sdict s)).toList

/-- The framework calls made in one iteration of the training loop, in
program order. -/
inductive TrainEvent where
  | flatten
  | zeroGrad
  | forward
  | lossCalc
  | backward
  | stepOpt
deriving DecidableEq

/-- The observable state of the training loop: the global step counter, the
accumulated `running_loss`, the loss values printed so far, and the trace of
framework calls made so far. -/
structure TrainState where
  steps : Nat
  running_loss : ℚ
  prints : List ℚ
  trace : List TrainEvent
deriving DecidableEq

/-- The fixed sequence of framework calls of one mini-batch iteration. -/
def batchEvents : List TrainEvent :=
  [TrainEvent.flatten, TrainEvent.zeroGrad, TrainEvent.forward,
   TrainEvent.lossCalc, TrainEvent.backward, TrainEvent.stepOpt]

/-- One iteration of the inner loop of the training notebook, transcribed
statement by statement (`steps += 1`; flatten; `zero_grad`; forward; loss;
backward; `optimizer.step()`; `running_loss += loss.item()`; print
`running_loss/print_every` and reset `running_loss` when `steps` is a
multiple of `print_every`).  The batch's loss value `l` is the number the
external criterion returns for this batch. -/
def runBatch (pe : Nat) (s : TrainState) (l : ℚ) : TrainState :=
  if (s.steps + 1) % pe = 0 then
    { steps := s.steps + 1
      running_loss := 0
      prints := s.prints ++ [(s.running_loss + l) / (pe : ℚ)]
      trace := s.trace ++ batchEvents }
  else
    { steps := s.steps + 1
      running_loss := s.running_loss + l
      prints := s.prints
      trace := s.trace ++ batchEvents }

/-- One epoch of the training loop: `running_loss = 0`, then the inner loop
over the epoch's batches.  The global `steps` counter is not reset. -/
def runEpoch (pe : Nat) (s : TrainState) (ls : List ℚ) : TrainState :=
  ls.foldl (runBatch pe) { s with running_loss := 0 }

/-- The state before the loop: `steps = 0`, nothing printed. -/
def initState : TrainState := ⟨0, 0, [], []⟩

/-- The whole training loop: the epochs in order, starting from the initial
state; each inner element of `es` is the loss value of one mini-batch. -/
def runTraining (pe : Nat) (es : List (List ℚ)) : TrainState :=
  es.foldl (runEpoch pe) initState

/-- The trace of framework calls of an epoch with the given number of
batches. -/
def epochEvents : Nat → List TrainEvent
  | 0 => []
  | n + 1 => batchEvents ++ epochEvents n

/-- Two layers agree on their dimensions and on the shapes of their parameter
tensors. -/
def Linear.sameShape (a b : Linear) : Prop :=
  a.in_features = b.in_features ∧ a.out_features = b.out_features ∧
  a.weight.shape = b.weight.shape ∧ a.bias.shape = b.bias.shape

/-- Closed form of the shape signature of the hidden part of a freshly built
network. -/
def hiddenSig : Nat → Nat → List Nat → List (PKey × List Nat)
  | _, _, [] => []
  | idx, inp, h :: t =>
      (PKey.hiddenW idx, [h, inp]) :: (PKey.hiddenB idx, [h]) :: hiddenSig (idx + 1) h t

theorem loadRecordEq (i o : Nat) (hs : List Nat) (sd : StateDict) :
    load_checkpoint (PyVal.record
      [("input_size", PyVal.num i), ("output_size", PyVal.num o),
       ("hidden_layers", PyVal.nlist hs), ("state_dict", PyVal.sdict sd)]) =
    (Network.build i o hs).load_state_dict sd := rfl

theorem loadCk_record_net (net : Network) :
    load_checkpoint (checkpointRecord net) =
      (Network.build 784 10 (net.hidden_layers.map Linear.out_features)).load_state_dict
        net.state_dict := rfl

theorem sdFind_append_of_none (extra sd : StateDict) (k : PKey)
    (h : ∀ p ∈ extra, p.1 ≠ k) : sdFind (extra ++ sd) k = sdFind sd k := by
  induction extra with
  | nil => rfl
  | cons p t ih =>
      simp only [List.cons_append, sdFind]
      rw [if_neg (h p (List.mem_cons_self p t))]
      exact ih fun q hq => h q (List.mem_cons_of_mem p hq)

theorem hiddenSD_key_form :
    ∀ (i : Nat) (ns : List Linear), ∀ p ∈ hiddenSD i ns,
      ∃ m, (p.1 = PKey.hiddenW m ∨ p.1 = PKey.hiddenB m) ∧ i ≤ m := by
  intro i ns
  induction ns generalizing i with
  | nil => intro p hp; simp [hiddenSD] at hp
  | cons l t ih =>
      intro p hp
      simp only [hiddenSD, List.mem_cons] at hp
      rcases hp with h1 | h1 | h1
      · exact ⟨i, Or.inl (by rw [h1]), le_refl i⟩
      · exact ⟨i, Or.inr (by rw [h1]), le_refl i⟩
      · obtain ⟨m, hm, him⟩ := ih (i + 1) p h1
        exact ⟨m, hm, by omega⟩

theorem restoreHidden_skip :
    ∀ (j : Nat) (bs : List Linear) (extra sd : StateDict),
      (∀ p ∈ extra, ∀ m, j ≤ m → p.1 ≠ PKey.hiddenW m ∧ p.1 ≠ PKey.hiddenB m) →
      restoreHidden j bs (extra ++ sd) = restoreHidden j bs sd := by
  intro j bs
  induction bs generalizing j with
  | nil => intro extra sd _; rfl
  | cons b t ih =>
      intro extra sd h
      simp only [restoreHidden]
      rw [sdFind_append_of_none extra sd (PKey.hiddenW j)
            (fun p hp => (h p hp j (le_refl j)).1),
          sdFind_append_of_none extra sd (PKey.hiddenB j)
            (fun p hp => (h p hp j (le_refl j)).2),
          ih (j + 1) extra sd (fun p hp m hm => h p hp m (by omega))]

theorem restoreHidden_exact :
    ∀ (i : Nat) (bs ns : List Linear) (rest : StateDict),
      List.Forall₂ (fun b n =>
        b.in_features = n.in_features ∧ b.out_features = n.out_features) bs ns →
      (∀ p ∈ rest, ∀ m, p.1 ≠ PKey.hiddenW m ∧ p.1 ≠ PKey.hiddenB m) →
      restoreHidden i bs (hiddenSD i ns ++ rest) = ns := by
  intro i bs ns rest hf hrest
  induction hf generalizing i with
  | nil => rfl
  | @cons b n bs' ns' hbn htail ih =>
      simp only [hiddenSD, List.cons_append, restoreHidden, List.cons.injEq]
      constructor
      · have hw : sdFind ((PKey.hiddenW i, n.weight) :: (PKey.hiddenB i, n.bias) ::
            (hiddenSD (i + 1) ns' ++ rest)) (PKey.hiddenW i) = some n.weight := by
          simp [sdFind]
        have hb2 : sdFind ((PKey.hiddenW i, n.weight) :: (PKey.hiddenB i, n.bias) ::
            (hiddenSD (i + 1) ns' ++ rest)) (PKey.hiddenB i) = some n.bias := by
          simp [sdFind]
        rw [hw, hb2]
        simp only [Option.getD_some]
        rw [hbn.1, hbn.2]
      · have hskip : restoreHidden (i + 1) bs'
            ([(PKey.hiddenW i, n.weight), (PKey.hiddenB i, n.bias)] ++
              (hiddenSD (i + 1) ns' ++ rest)) =
            restoreHidden (i + 1) bs' (hiddenSD (i + 1) ns' ++ rest) := by
          apply restoreHidden_skip
          intro p hp m hm
          simp only [List.mem_cons, List.mem_singleton] at hp
          rcases hp with h1 | h1 | h1
          · rw [h1]
            refine ⟨fun h => ?_, fun h => nomatch h⟩
            cases h
            omega
          · rw [h1]
            refine ⟨fun h => (nomatch h), fun h => ?_⟩
            cases h
            omega
          · simp at h1
        calc restoreHidden (i + 1) bs'
              ((PKey.hiddenW i, n.weight) :: (PKey.hiddenB i, n.bias) ::
                (hiddenSD (i + 1) ns' ++ rest))
            = restoreHidden (i + 1) bs' (hiddenSD (i + 1) ns' ++ rest) := hskip
          _ = ns' := ih (i + 1)

theorem sdSig_append (a b : StateDict) : sdSig (a ++ b) = sdSig a ++ sdSig b :=
  List.map_append _ a b

theorem hiddenSD_sig_congr :
    ∀ (i : Nat) (bs ns : List Linear),
      List.Forall₂ Linear.sameShape bs ns →
      sdSig (hiddenSD i bs) = sdSig (hiddenSD i ns) := by
  intro i bs ns hf
  induction hf generalizing i with
  | nil => rfl
  | @cons b n bs' ns' hbn htail ih =>
      simp only [hiddenSD, sdSig, List.map_cons]
      rw [hbn.2.2.1, hbn.2.2.2]
      have := ih (i + 1)
      simp only [sdSig] at this
      rw [this]

theorem state_dict_sig_congr (a b : Network)
    (hh : List.Forall₂ Linear.sameShape a.hidden_layers b.hidden_layers)
    (ho : a.output.sameShape b.output) :
    sdSig a.state_dict = sdSig b.state_dict := by
  unfold Network.state_dict
  rw [sdSig_append, sdSig_append, hiddenSD_sig_congr 0 _ _ hh]
  simp only [sdSig, List.map_cons, List.map_nil]
  rw [ho.2.2.1, ho.2.2.2]

theorem build_hidden_sameShape :
    ∀ (inp : Nat) (ls : List Linear),
      chainIn inp ls → (∀ l ∈ ls, l.shapely) →
      List.Forall₂ Linear.sameShape (mkHiddenLayers inp (ls.map Linear.out_features)) ls := by
  intro inp ls
  induction ls generalizing inp with
  | nil => intro _ _; exact List.Forall₂.nil
  | cons l t ih =>
      intro hc hs
      obtain ⟨h1, h2⟩ := hc
      have hsl := hs l (List.mem_cons_self l t)
      simp only [List.map_cons, mkHiddenLayers]
      refine List.Forall₂.cons ⟨h1.symm, rfl, ?_, ?_⟩
        (ih l.out_features h2 fun x hx => hs x (List.mem_cons_of_mem l hx))
      · show [l.out_features, inp] = l.weight.shape
        rw [hsl.1, h1]
      · show [l.out_features] = l.bias.shape
        rw [hsl.2]

theorem build_output_sameShape (net : Network) (inp outp : Nat) (h : net.wfWith inp outp) :
    (Network.build inp outp (net.hidden_layers.map Linear.out_features)).output.sameShape
      net.output := by
  obtain ⟨hc, hin, hout, hsh, hshape⟩ := h
  refine ⟨hin.symm, hout.symm, ?_, ?_⟩
  · show [outp, (net.hidden_layers.map Linear.out_features).getLastD inp] =
      net.output.weight.shape
    rw [hshape.1, hout, hin]
  · show [outp] = net.output.bias.shape
    rw [hshape.2, hout]

theorem withParams_of_sameShape (b net : Network)
    (hh : List.Forall₂ Linear.sameShape b.hidden_layers net.hidden_layers)
    (ho : b.output.sameShape net.output) :
    b.withParams net.state_dict = net := by
  obtain ⟨nh, no⟩ := net
  simp only at hh ho
  unfold Network.withParams Network.state_dict
  simp only [Network.mk.injEq]
  have hfe : List.Forall₂
      (fun x n => x.in_features = n.in_features ∧ x.out_features = n.out_features)
      b.hidden_layers nh := hh.imp fun _ _ hx => ⟨hx.1, hx.2.1⟩
  have hrest : ∀ p ∈ [(PKey.outW, no.weight), (PKey.outB, no.bias)],
      ∀ m, p.1 ≠ PKey.hiddenW m ∧ p.1 ≠ PKey.hiddenB m := by
    intro p hp m
    simp only [List.mem_cons, List.not_mem_nil, or_false] at hp
    rcases hp with h1 | h1
    · rw [h1]; exact ⟨fun hcon => (nomatch hcon), fun hcon => (nomatch hcon)⟩
    · rw [h1]; exact ⟨fun hcon => (nomatch hcon), fun hcon => (nomatch hcon)⟩
  constructor
  · exact restoreHidden_exact 0 _ nh _ hfe fun p hp m => hrest p hp m
  · have hnoh : ∀ p ∈ hiddenSD 0 nh, p.1 ≠ PKey.outW ∧ p.1 ≠ PKey.outB := by
      intro p hp
      obtain ⟨m, hm, -⟩ := hiddenSD_key_form 0 nh p hp
      rcases hm with h1 | h1 <;> rw [h1]
      · exact ⟨fun hcon => (nomatch hcon), fun hcon => (nomatch hcon)⟩
      · exact ⟨fun hcon => (nomatch hcon), fun hcon => (nomatch hcon)⟩
    have hfw : sdFind (hiddenSD 0 nh ++ [(PKey.outW, no.weight), (PKey.outB, no.bias)])
        PKey.outW = some no.weight := by
      rw [sdFind_append_of_none _ _ _ fun p hp => (hnoh p hp).1]
      simp [sdFind]
    have hfb : sdFind (hiddenSD 0 nh ++ [(PKey.outW, no.weight), (PKey.outB, no.bias)])
        PKey.outB = some no.bias := by
      rw [sdFind_append_of_none _ _ _ fun p hp => (hnoh p hp).2]
      simp [sdFind]
    rw [hfw, hfb]
    simp only [Option.getD_some]
    obtain ⟨e1, e2, -, -⟩ := ho
    rw [e1, e2]

theorem sig_hiddenSD_build :
    ∀ (i inp : Nat) (hs : List Nat),
      sdSig (hiddenSD i (mkHiddenLayers inp hs)) = hiddenSig i inp hs := by
  intro i inp hs
  induction hs generalizing i inp with
  | nil => rfl
  | cons h t ih =>
      simp only [mkHiddenLayers, hiddenSD, sdSig, List.map_cons, hiddenSig, List.cons.injEq]
      exact ⟨rfl, rfl, ih (i + 1) h⟩

theorem sig_build (inp outp : Nat) (hs : List Nat) :
    sdSig (Network.build inp outp hs).state_dict =
      hiddenSig 0 inp hs ++ [(PKey.outW, [outp, hs.getLastD inp]), (PKey.outB, [outp])] := by
  unfold Network.build Network.state_dict
  rw [sdSig_append, sig_hiddenSD_build]
  rfl

theorem hiddenSig_length :
    ∀ (i inp : Nat) (hs : List Nat), (hiddenSig i inp hs).length = 2 * hs.length := by
  intro i inp hs
  induction hs generalizing i inp with
  | nil => rfl
  | cons h t ih =>
      simp only [hiddenSig, List.length_cons, ih (i + 1) h]
      omega

theorem sig_build_ne (i o : Nat) (hs : List Nat) (hne : i ≠ 784 ∨ o ≠ 10) :
    sdSig (Network.build 784 10 hs).state_dict ≠ sdSig (Network.build i o hs).state_dict := by
  rw [sig_build, sig_build]
  intro h
  rcases hne with hi | ho
  · cases hs with
    | nil =>
        simp [hiddenSig] at h
        omega
    | cons a t =>
        simp [hiddenSig] at h
        omega
  · have hlen : (hiddenSig 0 784 hs).length = (hiddenSig 0 i hs).length := by
      rw [hiddenSig_length, hiddenSig_length]
    obtain ⟨-, hR⟩ := List.append_inj h hlen
    simp at hR
    omega

theorem sdSig_eq_iff_forall (a b : StateDict) :
    sdSig a = sdSig b ↔
      List.Forall₂ (fun p q => p.1 = q.1 ∧ p.2.shape = q.2.shape) a b := by
  constructor
  · intro h
    induction a generalizing b with
    | nil =>
        cases b with
        | nil => exact List.Forall₂.nil
        | cons q u => simp [sdSig] at h
    | cons p t ih =>
        cases b with
        | nil => simp [sdSig] at h
        | cons q u =>
            simp only [sdSig, List.map_cons, List.cons.injEq, Prod.mk.injEq] at h
            exact List.Forall₂.cons ⟨h.1.1, h.1.2⟩ (ih u h.2)
  · intro h
    induction h with
    | nil => rfl
    | @cons p q t u hpq htail ih =>
        simp only [sdSig, List.map_cons]
        rw [hpq.1, hpq.2]
        exact congrArg (List.cons _) ih

theorem runBatch_steps (pe : Nat) (s : TrainState) (l : ℚ) :
    (runBatch pe s l).steps = s.steps + 1 := by
  unfold runBatch; split <;> rfl

theorem runBatch_trace (pe : Nat) (s : TrainState) (l : ℚ) :
    (runBatch pe s l).trace = s.trace ++ batchEvents := by
  unfold runBatch; split <;> rfl

theorem runBatch_prints_prefix (pe : Nat) (s : TrainState) (l : ℚ) :
    ∃ v, (runBatch pe s l).prints = s.prints ++ v := by
  unfold runBatch; split
  · exact ⟨[(s.running_loss + l) / (pe : ℚ)], rfl⟩
  · exact ⟨[], (List.append_nil _).symm⟩

theorem foldl_batch_steps (pe : Nat) :
    ∀ (ls : List ℚ) (s : TrainState),
      (ls.foldl (runBatch pe) s).steps = s.steps + ls.length := by
  intro ls
  induction ls with
  | nil => intro s; rfl
  | cons l t ih =>
      intro s
      rw [List.foldl_cons, ih (runBatch pe s l), runBatch_steps]
      simp only [List.length_cons]
      omega

theorem foldl_batch_trace (pe : Nat) :
    ∀ (ls : List ℚ) (s : TrainState),
      (ls.foldl (runBatch pe) s).trace = s.trace ++ epochEvents ls.length := by
  intro ls
  induction ls with
  | nil => intro s; simp [epochEvents]
  | cons l t ih =>
      intro s
      rw [List.foldl_cons, ih (runBatch pe s l), runBatch_trace]
      simp [epochEvents, List.append_assoc]

theorem foldl_batch_prints (pe : Nat) :
    ∀ (ls : List ℚ) (s : TrainState),
      ∃ t, (ls.foldl (runBatch pe) s).prints = s.prints ++ t := by
  intro ls
  induction ls with
  | nil => intro s; exact ⟨[], (List.append_nil _).symm⟩
  | cons l t ih =>
      intro s
      obtain ⟨u, hu⟩ := ih (runBatch pe s l)
      obtain ⟨v, hv⟩ := runBatch_prints_prefix pe s l
      exact ⟨v ++ u, by rw [List.foldl_cons, hu, hv, List.append_assoc]⟩

theorem foldl_first_print (pe : Nat) :
    ∀ (k : Nat) (ls : List ℚ) (s : TrainState), 0 < k → k ≤ ls.length →
      (s.steps + k) % pe = 0 → (∀ j, 0 < j → j < k → (s.steps + j) % pe ≠ 0) →
      ∃ rest, (ls.foldl (runBatch pe) s).prints =
        s.prints ++ ((s.running_loss + (ls.take k).sum) / (pe : ℚ)) :: rest := by
  intro k
  induction k with
  | zero => intro ls s h0; exact absurd h0 (lt_irrefl 0)
  | succ k ih =>
      intro ls s _ hlen hk hmid
      cases ls with
      | nil => simp at hlen
      | cons l t =>
          rcases Nat.eq_zero_or_pos k with hk0 | hk0
          · subst hk0
            have hp : (s.steps + 1) % pe = 0 := hk
            have hb : runBatch pe s l =
                { steps := s.steps + 1, running_loss := 0,
                  prints := s.prints ++ [(s.running_loss + l) / (pe : ℚ)],
                  trace := s.trace ++ batchEvents } := by
              unfold runBatch; rw [if_pos hp]
            obtain ⟨u, hu⟩ := foldl_batch_prints pe t (runBatch pe s l)
            refine ⟨u, ?_⟩
            rw [List.foldl_cons, hu, hb]
            simp [List.append_assoc]
          · have hq : (s.steps + 1) % pe ≠ 0 := hmid 1 one_pos (by omega)
            have hb : runBatch pe s l =
                { steps := s.steps + 1, running_loss := s.running_loss + l,
                  prints := s.prints, trace := s.trace ++ batchEvents } := by
              unfold runBatch; rw [if_neg hq]
            rw [List.foldl_cons, hb]
            have hlen2 : k ≤ t.length := by
              simp only [List.length_cons] at hlen
              omega
            have hk2 : (s.steps + 1 + k) % pe = 0 := by
              rw [show s.steps + 1 + k = s.steps + (k + 1) by omega]
              exact hk
            have hmid2 : ∀ j, 0 < j → j < k → (s.steps + 1 + j) % pe ≠ 0 := by
              intro j hj1 hj2
              rw [show s.steps + 1 + j = s.steps + (j + 1) by omega]
              exact hmid (j + 1) (by omega) (by omega)
            obtain ⟨rest, hrest⟩ :=
              ih t ⟨s.steps + 1, s.running_loss + l, s.prints, s.trace ++ batchEvents⟩
                hk0 hlen2 hk2 hmid2
            refine ⟨rest, ?_⟩
            rw [hrest]
            have hsum : s.running_loss + l + (t.take k).sum =
                s.running_loss + ((l :: t).take (k + 1)).sum := by
              rw [List.take_succ_cons, List.sum_cons]
              ring
            rw [hsum]

theorem runEpoch_steps (pe : Nat) (s : TrainState) (ls : List ℚ) :
    (runEpoch pe s ls).steps = s.steps + ls.length := by
  unfold runEpoch
  rw [foldl_batch_steps]

theorem runTraining_steps_aux (pe : Nat) :
    ∀ (es : List (List ℚ)) (s : TrainState),
      (es.foldl (runEpoch pe) s).steps = s.steps + (es.map List.length).sum := by
  intro es
  induction es with
  | nil => intro s; simp
  | cons e t ih =>
      intro s
      rw [List.foldl_cons, ih (runEpoch pe s e), runEpoch_steps]
      simp only [List.map_cons, List.sum_cons]
      omega

theorem map_length_sum_const (N : Nat) :
    ∀ (es : List (List ℚ)), (∀ l ∈ es, l.length = N) →
      (es.map List.length).sum = es.length * N := by
  intro es
  induction es with
  | nil => intro _; simp
  | cons e t ih =>
      intro h
      simp only [List.map_cons, List.sum_cons, List.length_cons]
      rw [h e (List.mem_cons_self e t), ih fun x hx => h x (List.mem_cons_of_mem e hx)]
      ring

theorem lookup_spec_load (file : PyVal) (i o : Nat) (hs : List Nat) (sd : StateDict)
    (h1 : pyLookup file "input_size" = Except.ok (PyVal.num i))
    (h2 : pyLookup file "output_size" = Except.ok (PyVal.num o))
    (h3 : pyLookup file "hidden_layers" = Except.ok (PyVal.nlist hs))
    (h4 : pyLookup file "state_dict" = Except.ok (PyVal.sdict sd)) :
    load_checkpoint file = (Network.build i o hs).load_state_dict sd := by
  simp only [load_checkpoint, h1, h2, h3, h4]
  rfl

/-- C1 counterexample: the claim quantifies over every model, but the saving
cell hardcodes `input_size = 784`; a well-formed model of input size 2 is
saved with a configuration that disagrees with its `state_dict`, so
`load_checkpoint` on its checkpoint raises the shape-mismatch error instead of
returning a model. -/
theorem checkpoint_roundtrip_not_universal :
    (Network.build 2 10 [3]).wfWith 2 10 ∧
      load_checkpoint (checkpointRecord (Network.build 2 10 [3])) =
        Except.error LoadErr.sizeMismatch :=
  ⟨by decide, rfl⟩

/-- C1 (amended): for every well-formed model whose input size is 784 and
whose output size is 10 — the two values the saving cell hardcodes — saving
the checkpoint and calling `load_checkpoint` on it returns exactly the saved
model: identical architecture and identical parameter values. -/
theorem checkpoint_roundtrip_identity (net : Network) (h : net.wfWith 784 10) :
    load_checkpoint (checkpointRecord net) = Except.ok net := by
  rw [loadCk_record_net]
  have hh : List.Forall₂ Linear.sameShape
      (Network.build 784 10 (net.hidden_layers.map Linear.out_features)).hidden_layers
      net.hidden_layers :=
    build_hidden_sameShape 784 net.hidden_layers h.1 h.2.2.2.1
  have ho := build_output_sameShape net 784 10 h
  have hsig : sdSig (Network.build 784 10
        (net.hidden_layers.map Linear.out_features)).state_dict =
      sdSig net.state_dict :=
    state_dict_sig_congr _ net hh ho
  unfold Network.load_state_dict
  rw [if_pos hsig, withParams_of_sameShape _ net hh ho]

/-- Witness for the amended C1 at a concrete model. -/
theorem checkpoint_roundtrip_identity_witness :
    load_checkpoint (checkpointRecord (Network.build 784 10 [6])) =
      Except.ok (Network.build 784 10 [6]) :=
  checkpoint_roundtrip_identity (Network.build 784 10 [6]) (by decide)

/-- C2: for every file holding a checkpoint record, `load_checkpoint`
constructs a `Network` from exactly the three configuration values
`input_size`, `output_size` and `hidden_layers` read from the record, and its
result is the restoration of the record's `state_dict` into that freshly
constructed model (the construction is the input of the restoration, so it
happens strictly before it); the restored model is returned. -/
theorem load_checkpoint_sequence (file : PyVal) (i o : Nat) (hs : List Nat) (sd : StateDict)
    (h1 : pyLookup file "input_size" = Except.ok (PyVal.num i))
    (h2 : pyLookup file "output_size" = Except.ok (PyVal.num o))
    (h3 : pyLookup file "hidden_layers" = Except.ok (PyVal.nlist hs))
    (h4 : pyLookup file "state_dict" = Except.ok (PyVal.sdict sd)) :
    load_checkpoint file = (Network.build i o hs).load_state_dict sd :=
  lookup_spec_load file i o hs sd h1 h2 h3 h4

/-- Witness for C2 at a concrete record. -/
theorem load_checkpoint_sequence_witness :
    load_checkpoint (PyVal.record
      [("input_size", PyVal.num 784), ("output_size", PyVal.num 10),
       ("hidden_layers", PyVal.nlist [3]), ("state_dict", PyVal.sdict [])]) =
      (Network.build 784 10 [3]).load_state_dict [] :=
  load_checkpoint_sequence _ 784 10 [3] [] rfl rfl rfl rfl

/-- C3: every checkpoint record the save code persists has exactly the four
fields `input_size`, `output_size`, `hidden_layers` and `state_dict`, in this
order; `hidden_layers` is the ordered list of the `out_features` of the
model's hidden layers, and `state_dict` is the parameter mapping produced by
the external framework, stored as is. -/
theorem checkpoint_record_fields (net : Network) :
    recordKeys (checkpointRecord net) =
      ["input_size", "output_size", "hidden_layers", "state_dict"] ∧
    pyLookup (checkpointRecord net) "hidden_layers" =
      Except.ok (PyVal.nlist (net.hidden_layers.map Linear.out_features)) ∧
    pyLookup (checkpointRecord net) "state_dict" =
      Except.ok (PyVal.sdict net.state_dict) :=
  ⟨rfl, rfl, rfl⟩

/-- C4: once the four fields of a checkpoint record are read successfully,
the only way `load_checkpoint` can fail is the restore step, and a restore
error is the shape-mismatch error and propagates out of `load_checkpoint`
unchanged — there is no handler, no retry, and no model is returned. -/
theorem load_checkpoint_error_propagation (file : PyVal) (i o : Nat) (hs : List Nat)
    (sd : StateDict) (e : LoadErr)
    (h1 : pyLookup file "input_size" = Except.ok (PyVal.num i))
    (h2 : pyLookup file "output_size" = Except.ok (PyVal.num o))
    (h3 : pyLookup file "hidden_layers" = Except.ok (PyVal.nlist hs))
    (h4 : pyLookup file "state_dict" = Except.ok (PyVal.sdict sd))
    (he : (Network.build i o hs).load_state_dict sd = Except.error e) :
    load_checkpoint file = Except.error e ∧ e = LoadErr.sizeMismatch := by
  constructor
  · rw [lookup_spec_load file i o hs sd h1 h2 h3 h4]
    exact he
  · unfold Network.load_state_dict at he
    split at he
    · cases he
    · injection he with h5
      exact h5.symm

/-- Witness for C4 at a concrete mismatching record. -/
theorem load_checkpoint_error_propagation_witness :
    load_checkpoint (PyVal.record
      [("input_size", PyVal.num 784), ("output_size", PyVal.num 10),
       ("hidden_layers", PyVal.nlist [3]),
       ("state_dict", PyVal.sdict [(PKey.outW, ⟨[1], []⟩)])]) =
      Except.error LoadErr.sizeMismatch ∧
    LoadErr.sizeMismatch = LoadErr.sizeMismatch :=
  load_checkpoint_error_propagation _ 784 10 [3] [(PKey.outW, ⟨[1], []⟩)]
    LoadErr.sizeMismatch rfl rfl rfl rfl rfl

/-- C5: restoring a saved parameter mapping into a model succeeds exactly
when the saved entries correspond one to one to the model's parameters with
equal names and equal tensor shapes; and when the model is constructed from
the configuration values of a well-formed model's checkpoint, those shapes do
agree, so the shape-mismatch branch is unreachable. -/
theorem restore_success_iff_shapes :
    (∀ (net : Network) (sd : StateDict),
        (∃ m, net.load_state_dict sd = Except.ok m) ↔
          List.Forall₂ (fun saved own => saved.1 = own.1 ∧ saved.2.shape = own.2.shape)
            sd net.state_dict) ∧
    (∀ (net : Network) (i o : Nat), net.wfWith i o →
        ∃ m, (Network.build i o
            (net.hidden_layers.map Linear.out_features)).load_state_dict
          net.state_dict = Except.ok m) := by
  constructor
  · intro net sd
    unfold Network.load_state_dict
    constructor
    · rintro ⟨m, hm⟩
      split at hm
      · rename_i hc
        exact (sdSig_eq_iff_forall sd net.state_dict).mp hc.symm
      · cases hm
    · intro hf
      rw [if_pos ((sdSig_eq_iff_forall sd net.state_dict).mpr hf).symm]
      exact ⟨_, rfl⟩
  · intro net i o h
    have hh := build_hidden_sameShape i net.hidden_layers h.1 h.2.2.2.1
    have ho := build_output_sameShape net i o h
    have hsig := state_dict_sig_congr
      (Network.build i o (net.hidden_layers.map Linear.out_features)) net hh ho
    unfold Network.load_state_dict
    rw [if_pos hsig]
    exact ⟨_, rfl⟩

/-- Witness for C5's unreachability part at a concrete model. -/
theorem restore_success_iff_shapes_witness :
    ∃ m, (Network.build 3 4
        ((Network.build 3 4 [2]).hidden_layers.map Linear.out_features)).load_state_dict
      (Network.build 3 4 [2]).state_dict = Except.ok m :=
  restore_success_iff_shapes.2 (Network.build 3 4 [2]) 3 4 (by decide)

/-- C6: in every iteration of the training loop the framework calls happen in
the fixed order: flatten the batch images, clear the accumulated gradients,
forward pass, loss computation, backward pass, and only then the optimizer
step; an epoch is exactly this sequence once per mini-batch. -/
theorem training_step_order :
    (∀ (pe : Nat) (s : TrainState) (l : ℚ),
        (runBatch pe s l).trace =
          s.trace ++ [TrainEvent.flatten, TrainEvent.zeroGrad, TrainEvent.forward,
            TrainEvent.lossCalc, TrainEvent.backward, TrainEvent.stepOpt]) ∧
    (∀ (pe : Nat) (s : TrainState) (ls : List ℚ),
        (runEpoch pe s ls).trace = s.trace ++ epochEvents ls.length) := by
  constructor
  · intro pe s l
    exact runBatch_trace pe s l
  · intro pe s ls
    unfold runEpoch
    rw [foldl_batch_trace]

/-- C7: the parameter mapping passes through the checkpoint logic opaquely:
the `state_dict` stored by the save cell is exactly the mapping the framework
returns at save time, and for an arbitrary mapping `sd` in a checkpoint
record — whatever its content — `load_checkpoint` hands exactly `sd` to the
framework's restore call, reading, adding, removing or transforming
nothing. -/
theorem state_dict_opaque_passthrough :
    (∀ net : Network,
        pyLookup (checkpointRecord net) "state_dict" =
          Except.ok (PyVal.sdict net.state_dict)) ∧
    (∀ (i o : Nat) (hs : List Nat) (sd : StateDict),
        load_checkpoint (PyVal.record
          [("input_size", PyVal.num i), ("output_size", PyVal.num o),
           ("hidden_layers", PyVal.nlist hs), ("state_dict", PyVal.sdict sd)]) =
          (Network.build i o hs).load_state_dict sd) :=
  ⟨fun _ => rfl, fun i o hs sd => loadRecordEq i o hs sd⟩

/-- C8: the save cell writes the literals 784 and 10 as `input_size` and
`output_size` for every model, while `hidden_layers` is derived from the
model; consequently, for every well-formed model whose actual input or output
dimension differs from 784 or 10, `load_checkpoint` on its own checkpoint
ends in the shape-mismatch error instead of returning a model. -/
theorem hardcoded_sizes_checkpoint :
    (∀ net : Network,
        pyLookup (checkpointRecord net) "input_size" = Except.ok (PyVal.num 784) ∧
        pyLookup (checkpointRecord net) "output_size" = Except.ok (PyVal.num 10) ∧
        pyLookup (checkpointRecord net) "hidden_layers" =
          Except.ok (PyVal.nlist (net.hidden_layers.map Linear.out_features))) ∧
    (∀ (net : Network) (i o : Nat), net.wfWith i o → (i ≠ 784 ∨ o ≠ 10) →
        load_checkpoint (checkpointRecord net) = Except.error LoadErr.sizeMismatch) := by
  constructor
  · intro net
    exact ⟨rfl, rfl, rfl⟩
  · intro net i o h hne
    rw [loadCk_record_net]
    have hh := build_hidden_sameShape i net.hidden_layers h.1 h.2.2.2.1
    have ho := build_output_sameShape net i o h
    have hsig : sdSig net.state_dict =
        sdSig (Network.build i o (net.hidden_layers.map Linear.out_features)).state_dict :=
      (state_dict_sig_congr
        (Network.build i o (net.hidden_layers.map Linear.out_features)) net hh ho).symm
    unfold Network.load_state_dict
    rw [if_neg fun hc => sig_build_ne i o _ hne (hc.trans hsig)]

/-- Witness for C8's mismatch part at a model with output size 5. -/
theorem hardcoded_sizes_checkpoint_witness :
    load_checkpoint (checkpointRecord (Network.build 784 5 [4])) =
      Except.error LoadErr.sizeMismatch :=
  hardcoded_sizes_checkpoint.2 (Network.build 784 5 [4]) 784 5 (by decide)
    (Or.inr (by decide))

/-- C9: every printed loss is `running_loss / print_every`; `running_loss` is
reset at the start of each epoch while the global `steps` counter keeps
running, so whenever the carried-over step count is not a multiple of
`print_every`, the first value printed in the next epoch divides the sum of
strictly fewer than `print_every` batch losses by `print_every`,
underestimating the mean batch loss of its window.  Here `pre` is the list of
completed epochs (each of `N` batches) and `ls` the next epoch's losses. -/
theorem first_print_of_later_epoch (pe N : Nat) (pre : List (List ℚ)) (ls : List ℚ)
    (hpe : 0 < pe) (hN : ∀ l ∈ pre, l.length = N)
    (hr : (pre.length * N) % pe ≠ 0)
    (hk : pe - (pre.length * N) % pe ≤ ls.length) :
    (runTraining pe pre).steps = pre.length * N ∧
    pe - (pre.length * N) % pe < pe ∧
    ∃ rest, (runEpoch pe (runTraining pe pre) ls).prints =
      (runTraining pe pre).prints ++
        ((ls.take (pe - (pre.length * N) % pe)).sum / (pe : ℚ)) :: rest := by
  have hsteps : (runTraining pe pre).steps = pre.length * N := by
    unfold runTraining
    rw [runTraining_steps_aux pe pre initState, map_length_sum_const N pre hN]
    show 0 + pre.length * N = pre.length * N
    omega
  have hlt : (pre.length * N) % pe < pe := Nat.mod_lt _ hpe
  refine ⟨hsteps, by omega, ?_⟩
  have hM : pre.length * N = pe * (pre.length * N / pe) + (pre.length * N) % pe :=
    (Nat.div_add_mod (pre.length * N) pe).symm
  have h0k : 0 < pe - (pre.length * N) % pe := by omega
  have hmod : ((runTraining pe pre).steps + (pe - (pre.length * N) % pe)) % pe = 0 := by
    rw [hsteps]
    have h1 : pre.length * N + (pe - (pre.length * N) % pe) =
        pe * (pre.length * N / pe) + pe := by
      generalize pe * (pre.length * N / pe) = M at hM ⊢
      omega
    rw [h1, Nat.mul_add_mod, Nat.mod_self]
  have hmid : ∀ j, 0 < j → j < pe - (pre.length * N) % pe →
      ((runTraining pe pre).steps + j) % pe ≠ 0 := by
    intro j hj1 hj2
    rw [hsteps]
    have h2 : pre.length * N + j =
        pe * (pre.length * N / pe) + ((pre.length * N) % pe + j) := by
      generalize pe * (pre.length * N / pe) = M at hM ⊢
      omega
    rw [h2, Nat.mul_add_mod, Nat.mod_eq_of_lt (by omega)]
    omega
  unfold runEpoch
  obtain ⟨rest, hrest⟩ := foldl_first_print pe (pe - (pre.length * N) % pe) ls
    { runTraining pe pre with running_loss := 0 } h0k hk hmod hmid
  refine ⟨rest, ?_⟩
  rw [hrest]
  show (runTraining pe pre).prints ++
      ((0 + (ls.take (pe - (pre.length * N) % pe)).sum) / (pe : ℚ)) :: rest = _
  rw [zero_add]

/-- Witness for C9 with the notebook's `print_every = 40` and an epoch of 938
batches (60000 MNIST images in batches of 64): the first print of the second
epoch averages only 22 of the 40 slots. -/
theorem first_print_of_later_epoch_witness :
    (runTraining 40 [List.replicate 938 (1 : ℚ)]).steps =
        [List.replicate 938 (1 : ℚ)].length * 938 ∧
    40 - ([List.replicate 938 (1 : ℚ)].length * 938) % 40 < 40 ∧
    ∃ rest, (runEpoch 40 (runTraining 40 [List.replicate 938 (1 : ℚ)])
        (List.replicate 30 (1 : ℚ))).prints =
      (runTraining 40 [List.replicate 938 (1 : ℚ)]).prints ++
        (((List.replicate 30 (1 : ℚ)).take
            (40 - ([List.replicate 938 (1 : ℚ)].length * 938) % 40)).sum /
          (40 : ℚ)) :: rest :=
  first_print_of_later_epoch 40 938 [List.replicate 938 (1 : ℚ)]
    (List.replicate 30 (1 : ℚ)) (by decide)
    (by intro l hl; rw [List.mem_singleton] at hl; rw [hl]; exact List.length_replicate 938 1)
    (by decide) (by rw [List.length_replicate]; decide)

/-- C10: `load_checkpoint` requires the loaded mapping to contain all four
keys: on the file the earlier save cell writes (a bare `state_dict`) it
raises the key error for `input_size`, and on any checkpoint-like record
lacking at least one of the four fields it raises a key error for one of them
and returns no model. -/
theorem missing_key_lookup_error :
    (load_checkpoint (PyVal.sdict (Network.build 784 10 [512, 256, 128]).state_dict) =
        Except.error (LoadErr.keyError "input_size")) ∧
    (∀ (i o : Option Nat) (hs : Option (List Nat)) (sd : Option StateDict),
        i = none ∨ o = none ∨ hs = none ∨ sd = none →
        ∃ k, k ∈ ["input_size", "output_size", "hidden_layers", "state_dict"] ∧
          load_checkpoint (PyVal.record (optEntries i o hs sd)) =
            Except.error (LoadErr.keyError k)) := by
  constructor
  · rfl
  · intro i o hs sd hmiss
    cases i with
    | none =>
        cases o <;> cases hs <;> cases sd <;>
          exact ⟨"input_size", by decide, rfl⟩
    | some a =>
        cases o with
        | none =>
            cases hs <;> cases sd <;> exact ⟨"output_size", by decide, rfl⟩
        | some b =>
            cases hs with
            | none => cases sd <;> exact ⟨"hidden_layers", by decide, rfl⟩
            | some c =>
                cases sd with
                | none => exact ⟨"state_dict", by decide, rfl⟩
                | some d => simp at hmiss

/-- Witness for C10's missing-field part: a record with only `input_size` and
`hidden_layers`. -/
theorem missing_key_lookup_error_witness :
    ∃ k, k ∈ ["input_size", "output_size", "hidden_layers", "state_dict"] ∧
      load_checkpoint (PyVal.record (optEntries (some 7) none (some [3]) none)) =
        Except.error (LoadErr.keyError k) :=
  missing_key_lookup_error.2 (some 7) none (some [3]) none (Or.inr (Or.inl rfl))
